import Mathlib

/-!
Verification of the Blender-Video-Maker audio-visualizer core.

Shallow embedding of the algorithmic content of the two source files
(`blender_video_maker.py` and `blender_video_maker_addon.py`):
audio loading with 2-channel decimation, windowed spectral-envelope
extraction, frame scheduling, and per-style procedural displacement
generation.

Numeric conventions of the embedding:
- machine int16 samples become `Int`, float quantities become `Real`;
- integer truncation `int(x)` on non-negative values becomes `Nat`
  floor division;
- the numpy floating semantics of division by zero (which yields a
  non-finite NaN/inf value with a warning, raising no exception) is
  modelled by `Option Real`: `none` is a non-finite value, and the
  operations `npAdd`, `npMul`, `npDiv` propagate it the way IEEE
  arithmetic propagates NaN;
- a Python exception escaping a function is modelled by the function
  returning `none` at its outer `Option` layer.
-/

namespace BVM

/-! ## Non-finite-propagating numpy scalar arithmetic -/

/-- Addition on numpy float scalars; `none` (a non-finite value) propagates. -/
def npAdd : Option ℝ → Option ℝ → Option ℝ
  | some a, some b => some (a + b)
  | _, _ => none

/-- Multiplication on numpy float scalars; `none` propagates. -/
def npMul : Option ℝ → Option ℝ → Option ℝ
  | some a, some b => some (a * b)
  | _, _ => none

/-- Division on numpy float scalars: a zero denominator yields a
non-finite result (numpy emits a warning and returns NaN or inf,
raising no exception), modelled as `none`. -/
noncomputable def npDiv : Option ℝ → Option ℝ → Option ℝ
  | some a, some b => if b = 0 then none else some (a / b)
  | _, _ => none

/-! ## Audio loading (`load_audio`, both files)

`data = np.frombuffer(raw, dtype=np.int16); if n_channels == 2: data = data[::2]`. -/

/-- Python slicing `data[::2]`: every other element, starting at index 0. -/
def everyOther : List ℤ → List ℤ
  | [] => []
  | [x] => [x]
  | x :: _ :: rest => x :: everyOther rest

/-- `load_audio`: the interleaved int16 stream is kept as is for mono
input and decimated by `[::2]` for 2-channel input. -/
def loadAudio (nChannels : Nat) (data : List ℤ) : List ℤ :=
  if nChannels = 2 then everyOther data else data

/-! ## Spectral-envelope extraction (`get_fft`, `blender_video_maker.py`)

`chunk_size = len(data) // chunks;`
`segment = data[i*chunk_size:(i+1)*chunk_size];`
`fft_vals = np.abs(np.fft.fft(segment))[:chunk_size//2];`
`fft_bands.append(np.mean(fft_vals))`. -/

/-- The window (Python slice `data[i*chunk_size:(i+1)*chunk_size]`) read
for band `i`, where `chunk_size = len(data) // chunks`. -/
def windowOf (data : List ℤ) (chunks i : Nat) : List ℤ :=
  (data.drop (i * (data.length / chunks))).take (data.length / chunks)

/-- One coefficient of the discrete Fourier transform computed by
`np.fft.fft` on a window of int16 samples. -/
noncomputable def dftCoeff (seg : List ℤ) (k : Nat) : ℂ :=
  ∑ j ∈ Finset.range seg.length,
    ((seg.getD j 0 : ℤ) : ℂ) *
      Complex.exp (-(2 * Real.pi * Complex.I * (k : ℂ) * (j : ℂ)) / (seg.length : ℂ))

/-- `np.abs(np.fft.fft(segment))`: the magnitude spectrum of a window. -/
noncomputable def dftMags (seg : List ℤ) : List ℝ :=
  (List.range seg.length).map (fun k => Complex.abs (dftCoeff seg k))

/-- `np.mean` on a float vector: `none` (NaN, with a runtime warning and
no exception) for an empty vector, the arithmetic mean otherwise. -/
noncomputable def meanOpt : List ℝ → Option ℝ
  | [] => none
  | x :: xs => some ((x :: xs).sum / ((x :: xs).length : ℝ))

/-- `get_fft(chunks)` of `blender_video_maker.py`. The outer `none`
models an escaping exception: `len(data) // 0` raises for
`chunks == 0`, and `np.fft.fft` raises `ValueError` on the empty
window that arises as soon as `chunk_size == 0` while the band loop
still runs. Inner `none` values are NaN band means. -/
noncomputable def getFft (data : List ℤ) (chunks : Nat) : Option (List (Option ℝ)) :=
  if chunks = 0 then none
  else if data.length / chunks = 0 then none
  else some ((List.range chunks).map (fun i =>
    meanOpt ((dftMags (windowOf data chunks i)).take ((data.length / chunks) / 2))))

/-! ## Frame scheduling (`get_fft` of the addon, lines 59-66, and
`animate_objects` line 158) -/

/-- `total_frames = int(len(wav_data) / sample_rate * fps)` of the addon:
exact floor of duration times frame rate, with no clamping. -/
def totalFramesOf (numSamples sampleRate fps : Nat) : Nat :=
  numSamples * fps / sampleRate

/-- `frames_per_chunk = max(1, total_frames // len(fft_data))` of the
addon `animate_objects`. -/
def framesPerChunkOf (totalFrames envLen : Nat) : Nat :=
  Nat.max 1 (totalFrames / envLen)

/-! ## Animation generation (`animate_objects` of the addon, lines 149-199) -/

/-- The `animation_type` enum of the addon (`AVProperties.animation_type`). -/
inductive AnimType
  | ROLL
  | MOUTH
  | WAVE
deriving DecidableEq, Repr

/-- The keyword arguments of `animate_objects`, drawn from `AVProperties`. -/
structure AnimCfg where
  exaggeration : ℝ
  morphAmount : ℝ
  zWaveEmphasis : ℝ
  animationType : AnimType

/-- An object location (`obj.location`); each coordinate is a numpy-float
scalar, so it may be non-finite (`none`) after a NaN propagates in. -/
structure Loc3 where
  x : Option ℝ
  y : Option ℝ
  z : Option ℝ
deriving Inhabited

/-- One `obj.keyframe_insert(data_path="location", frame=frame)` record:
which object, at which frame, with which just-assigned location. -/
structure Keyframe where
  idx : Nat
  frame : Nat
  loc : Loc3
deriving Inhabited

/-- Python `max(fft_data)`: raises on an empty sequence (`none`),
otherwise folds binary max over the elements. -/
noncomputable def pyMax : List ℝ → Option ℝ
  | [] => none
  | x :: xs => some (xs.foldl max x)

/-- `norm_amp = amp / max_val` for segment `s` of the envelope, with
`max_val = max(fft_data)` (line 155 and 167 of the addon). -/
noncomputable def normAmpOf (env : List ℝ) (s : Nat) : Option ℝ :=
  match pyMax env with
  | none => none
  | some mv => npDiv (some (env.getD s 0)) (some mv)

/-- The body of the inner loop of `animate_objects` for one object `i` at
one frame: computes `morph_x`, `morph_y`, `z_wave` for the selected
style and assigns `obj.location = base + (morph_x, morph_y, z_wave)`.
`cols` is the grid width the addon recovers as `int(np.sqrt(num_objs))`;
for the WAVE style `row = i // cols`, `col = i % cols`,
`offset = (row + col) * 0.15`. -/
noncomputable def locUpdate (cfg : AnimCfg) (cols : Nat) (normAmp : Option ℝ)
    (base : Loc3) (phase : ℝ) (i frameNo : Nat) : Loc3 :=
  let t : ℝ := (frameNo : ℝ) * 0.05 + phase
  match cfg.animationType with
  | .ROLL =>
      let morphX := cfg.morphAmount * Real.sin t
      let morphY := cfg.morphAmount * Real.sin t
      let zWave := npAdd (npMul normAmp (some cfg.exaggeration))
        (some (cfg.zWaveEmphasis * Real.sin t))
      ⟨npAdd base.x (some morphX), npAdd base.y (some morphY), npAdd base.z zWave⟩
  | .MOUTH =>
      let morphX := cfg.morphAmount * Real.sin (t + (i : ℝ) * 0.1)
      let morphY := cfg.morphAmount * Real.sin (t * 1.1 + (i : ℝ) * 0.1)
      let zWave := npAdd
        (npMul (npMul normAmp (some cfg.exaggeration)) (some (Real.sin ((i : ℝ) * 0.2))))
        (some (cfg.zWaveEmphasis * Real.sin (t * 0.3)))
      ⟨npAdd base.x (some morphX), npAdd base.y (some morphY), npAdd base.z zWave⟩
  | .WAVE =>
      let offset : ℝ := ((i / cols + i % cols : Nat) : ℝ) * 0.15
      let morphX := cfg.morphAmount * Real.sin (t + offset)
      let morphY := cfg.morphAmount * Real.sin (t + offset)
      let zWave := npAdd
        (npMul (npMul normAmp (some cfg.exaggeration)) (some (Real.sin (offset + t))))
        (some (cfg.zWaveEmphasis * Real.sin (t * 0.3)))
      ⟨npAdd base.x (some morphX), npAdd base.y (some morphY), npAdd base.z zWave⟩

/-- The locations assigned during one chunk iteration: every object is
re-assigned from the immutable `base_positions` snapshot, so the new
location list does not depend on the previous one. -/
noncomputable def chunkLocs (cfg : AnimCfg) (base : List Loc3) (phases : List ℝ)
    (cols : Nat) (normAmp : Option ℝ) (frameNo : Nat) : List Loc3 :=
  (List.range base.length).map (fun i =>
    locUpdate cfg cols normAmp (base.getD i default) (phases.getD i 0) i frameNo)

/-- The keyframes inserted during one chunk iteration (one per object,
all at the chunk frame, holding the just-assigned location). -/
noncomputable def chunkKfs (cfg : AnimCfg) (base : List Loc3) (phases : List ℝ)
    (cols : Nat) (normAmp : Option ℝ) (frameNo : Nat) : List Keyframe :=
  (List.range base.length).map (fun i =>
    ⟨i, frameNo, locUpdate cfg cols normAmp (base.getD i default) (phases.getD i 0) i frameNo⟩)

/-- One iteration of the `for chunk_i, amp in enumerate(self.fft_data)`
loop: state is (current object locations, keyframes inserted so far);
`frame = 1 + chunk_i * frames_per_chunk` since `frame` starts at 1 and
grows by `frames_per_chunk` per chunk. -/
noncomputable def animStep (cfg : AnimCfg) (base : List Loc3) (phases : List ℝ)
    (cols : Nat) (maxVal : ℝ) (fpc : Nat)
    (st : List Loc3 × List Keyframe) (sa : Nat × ℝ) : List Loc3 × List Keyframe :=
  let frameNo := 1 + sa.1 * fpc
  let normAmp := npDiv (some sa.2) (some maxVal)
  (chunkLocs cfg base phases cols normAmp frameNo,
   st.2 ++ chunkKfs cfg base phases cols normAmp frameNo)

/-- `animate_objects` of the addon. Arguments: the config, the
per-element phase source standing for `random.random() * np.pi * 2`
(the source draws one phase per object, in object order), the possibly
absent `self.fft_data`, `self.total_frames`, and the current object
locations. Returns `none` when an exception escapes (`max` of an empty
envelope raises `ValueError`); returns the final object locations and
the inserted keyframes otherwise. When `fft_data is None` the method
prints a warning and returns with nothing modified. -/
noncomputable def animateObjects (cfg : AnimCfg) (phaseFun : Nat → ℝ)
    (fftData : Option (List ℝ)) (totalFrames : Nat) (objs : List Loc3) :
    Option (List Loc3 × List Keyframe) :=
  match fftData with
  | none => some (objs, [])
  | some env =>
    match pyMax env with
    | none => none
    | some maxVal =>
      let phases := (List.range objs.length).map phaseFun
      let fpc := framesPerChunkOf totalFrames env.length
      let cols := Nat.sqrt objs.length
      some (env.enum.foldl (animStep cfg objs phases cols maxVal fpc) (objs, []))

/-- The keyframe list as a pure per-(segment, object) map: for segment
`s` and object `i` the inserted location is
`locUpdate` of the immutable initial location of object `i` at frame
`1 + s * framesPerChunk` — no state flows between frames. -/
noncomputable def pureKeyframes (cfg : AnimCfg) (phaseFun : Nat → ℝ) (env : List ℝ)
    (totalFrames : Nat) (objs : List Loc3) (maxVal : ℝ) : List Keyframe :=
  env.enum.flatMap (fun sa =>
    chunkKfs cfg objs ((List.range objs.length).map phaseFun) (Nat.sqrt objs.length)
      (npDiv (some sa.2) (some maxVal))
      (1 + sa.1 * framesPerChunkOf totalFrames env.length))

/-! ## Grid construction (`create_wave_objects` of the addon) -/

/-- Base locations laid out by `create_wave_objects(count_x, count_y,
spacing)`: `for y in range(count_y): for x in range(count_x):
loc = (x*spacing, y*spacing, 0)`, so the element of grid position
(row `y`, column `x`) has flat index `y * count_x + x`. -/
noncomputable def gridPositions (countX countY : Nat) (spacing : ℝ) : List Loc3 :=
  (List.range countY).flatMap (fun y =>
    (List.range countX).map (fun x =>
      ⟨some ((x : ℝ) * spacing), some ((y : ℝ) * spacing), some 0⟩))

/-! ## Seeded phase generation and the whole run

Modelled from the spec: section 4.4 and section 9 require the
per-element phase generator to accept an explicit seed; the source
draws phases with unseeded `random.random()`, which the spec replaces
by an injectable seedable generator. A linear congruential generator
mapped into `[0, 2*pi)` stands in for it. -/

/-- Modelled from the spec: one step of the injectable seedable
pseudo-random generator (the source has only unseeded `random.random()`). -/
def lcgNext (s : Nat) : Nat := (1103515245 * s + 12345) % 2 ^ 31

/-- Modelled from the spec: the i-th raw draw of the seeded generator. -/
def lcgStream (seed : Nat) : Nat → Nat
  | 0 => lcgNext seed
  | n + 1 => lcgNext (lcgStream seed n)

/-- Modelled from the spec: the i-th per-element phase in `[0, 2*pi)`
drawn from the seeded generator, standing for
`random.random() * np.pi * 2`. -/
noncomputable def phaseFromSeed (seed i : Nat) : ℝ :=
  ((lcgStream seed i : ℝ) / 2 ^ 31) * (2 * Real.pi)

/-- A full generation run over an extracted envelope: build the grid,
draw every phase from the seed, and generate all displacement samples. -/
noncomputable def pipelineRun (seed : Nat) (cfg : AnimCfg) (env : List ℝ)
    (totalFrames countX countY : Nat) (spacing : ℝ) :
    Option (List Loc3 × List Keyframe) :=
  animateObjects cfg (phaseFromSeed seed) (some env) totalFrames
    (gridPositions countX countY spacing)

/-! ## Helper lemmas -/

@[simp]
lemma npAdd_some_some (a b : ℝ) : npAdd (some a) (some b) = some (a + b) := rfl

@[simp]
lemma npAdd_none_left (a : Option ℝ) : npAdd none a = none := rfl

@[simp]
lemma npAdd_none_right (a : Option ℝ) : npAdd a none = none := by
  cases a <;> rfl

@[simp]
lemma npMul_some_some (a b : ℝ) : npMul (some a) (some b) = some (a * b) := rfl

@[simp]
lemma npMul_none_left (a : Option ℝ) : npMul none a = none := rfl

@[simp]
lemma npMul_none_right (a : Option ℝ) : npMul a none = none := by
  cases a <;> rfl

@[simp]
lemma npDiv_some_zero (a : ℝ) : npDiv (some a) (some 0) = none := by
  simp [npDiv]

@[simp]
lemma npDiv_some_some (a b : ℝ) (h : b ≠ 0) :
    npDiv (some a) (some b) = some (a / b) := by
  simp [npDiv, h]

lemma foldl_max_of_all_zero :
    ∀ (l : List ℝ), (∀ x ∈ l, x = 0) → l.foldl max 0 = 0 := by
  intro l
  induction l with
  | nil => intro _; rfl
  | cons h t ih =>
      intro hall
      have h0 : h = 0 := hall h (List.mem_cons_self h t)
      have : max (0 : ℝ) h = 0 := by simp [h0]
      simpa [List.foldl_cons, this] using ih (fun x hx => hall x (List.mem_cons_of_mem h hx))

lemma pyMax_of_all_zero (env : List ℝ) (hne : env ≠ []) (h0 : ∀ x ∈ env, x = 0) :
    pyMax env = some 0 := by
  cases env with
  | nil => exact absurd rfl hne
  | cons e es =>
      have he : e = 0 := h0 e (List.mem_cons_self e es)
      have hes : ∀ x ∈ es, x = 0 := fun x hx => h0 x (List.mem_cons_of_mem e hx)
      simp [pyMax, he, foldl_max_of_all_zero es hes]

/-- When the normalized amplitude is non-finite, the assigned z
coordinate is non-finite in every animation style. -/
lemma locUpdate_z_of_none (cfg : AnimCfg) (cols : Nat) (base : Loc3)
    (phase : ℝ) (i frameNo : Nat) :
    (locUpdate cfg cols none base phase i frameNo).z = none := by
  cases h : cfg.animationType <;> simp [locUpdate, h]

/-- Unrolling the chunk fold: the keyframe component is the
accumulated keyframes followed by one `chunkKfs` batch per chunk. -/
lemma foldl_animStep_snd (cfg : AnimCfg) (base : List Loc3) (phases : List ℝ)
    (cols : Nat) (maxVal : ℝ) (fpc : Nat) :
    ∀ (l : List (Nat × ℝ)) (p : List Loc3) (k : List Keyframe),
      (l.foldl (animStep cfg base phases cols maxVal fpc) (p, k)).2 =
        k ++ l.flatMap (fun sa =>
          chunkKfs cfg base phases cols (npDiv (some sa.2) (some maxVal)) (1 + sa.1 * fpc)) := by
  intro l
  induction l with
  | nil => intro p k; simp
  | cons hd tl ih =>
      intro p k
      simp only [List.foldl_cons, List.flatMap_cons, animStep]
      rw [ih]
      simp [List.append_assoc]

/-- `animate_objects` on a non-empty envelope: keyframes equal the pure
per-(segment, object) map `pureKeyframes`. -/
lemma animateObjects_eq_pure (cfg : AnimCfg) (phaseFun : Nat → ℝ) (env : List ℝ)
    (totalFrames : Nat) (objs : List Loc3) (maxVal : ℝ)
    (hmax : pyMax env = some maxVal) :
    ∃ finalLocs, animateObjects cfg phaseFun (some env) totalFrames objs =
      some (finalLocs, pureKeyframes cfg phaseFun env totalFrames objs maxVal) := by
  refine ⟨(env.enum.foldl
    (animStep cfg objs ((List.range objs.length).map phaseFun)
      (Nat.sqrt objs.length) maxVal (framesPerChunkOf totalFrames env.length))
    (objs, [])).1, ?_⟩
  simp only [animateObjects, hmax]
  congr 1
  refine Prod.ext rfl ?_
  rw [foldl_animStep_snd]
  simp [pureKeyframes]

lemma everyOther_get? : ∀ (l : List ℤ) (i : Nat),
    (everyOther l).get? i = l.get? (2 * i)
  | [], i => by simp [everyOther]
  | [x], 0 => by simp [everyOther]
  | [x], i + 1 => by simp [everyOther, List.get?]
  | x :: y :: rest, 0 => by simp [everyOther]
  | x :: y :: rest, i + 1 => by
      have ih := everyOther_get? rest i
      have h2 : 2 * (i + 1) = 2 * i + 1 + 1 := by ring
      simp only [everyOther, h2, List.get?_cons_succ]
      exact ih

lemma everyOther_length : ∀ (l : List ℤ),
    (everyOther l).length = (l.length + 1) / 2
  | [] => by simp [everyOther]
  | [x] => by simp [everyOther]
  | x :: y :: rest => by
      have ih := everyOther_length rest
      simp [everyOther, ih]
      omega

/-- The mean of a non-empty list of non-negative reals exists and is
non-negative. -/
lemma meanOpt_nonneg (l : List ℝ) (hne : l ≠ []) (hnn : ∀ y ∈ l, 0 ≤ y) :
    ∃ r, meanOpt l = some r ∧ 0 ≤ r := by
  cases l with
  | nil => exact absurd rfl hne
  | cons x xs =>
      refine ⟨(x :: xs).sum / ((x :: xs).length : ℝ), rfl, ?_⟩
      have hsum : 0 ≤ (x :: xs).sum := List.sum_nonneg hnn
      have hlen : (0 : ℝ) ≤ ((x :: xs).length : ℝ) := by positivity
      exact div_nonneg hsum hlen

/-- Every value of the magnitude spectrum is non-negative. -/
lemma dftMags_nonneg (seg : List ℤ) : ∀ y ∈ dftMags seg, 0 ≤ y := by
  intro y hy
  simp only [dftMags, List.mem_map] at hy
  obtain ⟨k, -, rfl⟩ := hy
  exact Complex.abs.nonneg _

lemma windowOf_length (data : List ℤ) (chunks i : Nat) (hi : i < chunks) :
    (windowOf data chunks i).length = data.length / chunks := by
  have h1 : (data.length / chunks) * chunks ≤ data.length := Nat.div_mul_le_self _ _
  have h2 : (i + 1) * (data.length / chunks) ≤ chunks * (data.length / chunks) :=
    Nat.mul_le_mul_right _ hi
  rw [Nat.succ_mul] at h2
  have h3 : chunks * (data.length / chunks) = (data.length / chunks) * chunks :=
    Nat.mul_comm _ _
  simp only [windowOf, List.length_take, List.length_drop]
  omega

/-! ## Claim theorems -/

/-- C10: if animation generation is invoked while the envelope
(`fft_data`) is absent (`None`), `animate_objects` returns immediately:
no keyframe is inserted and every object location is unchanged. -/
theorem C10_missing_envelope (cfg : AnimCfg) (phaseFun : Nat → ℝ)
    (totalFrames : Nat) (objs : List Loc3) :
    animateObjects cfg phaseFun none totalFrames objs = some (objs, []) := rfl

/-- C3: whenever the requested segment count exceeds the number of audio
samples, the window size is zero and extraction fails (the first
`np.fft.fft` call raises on an empty window — the failure mode the spec
labels `InvalidSegmentationError`) instead of producing an envelope. -/
theorem C3_invalid_segmentation (data : List ℤ) (chunks : Nat)
    (h : data.length < chunks) : getFft data chunks = none := by
  have hch : ¬ chunks = 0 := by omega
  have hcs : data.length / chunks = 0 := Nat.div_eq_of_lt h
  simp [getFft, hch, hcs]

/-- C3 witness: two samples, three requested segments. -/
theorem C3_witness : getFft [(1 : ℤ), 2] 3 = none :=
  C3_invalid_segmentation [1, 2] 3 (by decide)

/-- C2 counterexample: the source computes
`total_frames = int(len(data) / sample_rate * fps)` with no clamping, so
a 10-sample track at 44100 Hz with 24 fps yields 0 frames, not the
claimed minimum of 1. -/
theorem C2_cex : totalFramesOf 10 44100 24 ≠ Nat.max 1 (10 * 24 / 44100) := by
  decide

/-- C2 amended: `totalFrames` is the plain floor of duration times frame
rate with no minimum clamp — it is 0 exactly when the track is shorter
than one frame — while `framesPerSegment = max(1, totalFrames //
envelopeLength)` is at least 1 for every non-empty envelope. -/
theorem C2_schedule (numSamples sampleRate fps envLen : Nat) :
    (numSamples * fps < sampleRate → totalFramesOf numSamples sampleRate fps = 0) ∧
    (1 ≤ envLen →
      1 ≤ framesPerChunkOf (totalFramesOf numSamples sampleRate fps) envLen) := by
  constructor
  · intro h
    exact Nat.div_eq_of_lt h
  · intro _
    exact Nat.le_max_left 1 _

/-- C2 witness: the 10-sample track at 44100 Hz with 24 fps schedules 0
total frames, while a 200-value envelope still gets one frame per
segment. -/
theorem C2_witness :
    totalFramesOf 10 44100 24 = 0 ∧
    1 ≤ framesPerChunkOf (totalFramesOf 10 44100 24) 200 :=
  ⟨(C2_schedule 10 44100 24 200).1 (by decide),
   (C2_schedule 10 44100 24 200).2 (by decide)⟩

/-- C8: for a 2-channel track `load_audio` returns exactly the
even-indexed interleaved samples (the first channel), discarding the
second channel; a 1-channel track is returned unchanged. -/
theorem C8_downmix :
    (∀ (data : List ℤ) (i : Nat), (loadAudio 2 data).get? i = data.get? (2 * i)) ∧
    (∀ data : List ℤ, (loadAudio 2 data).length = (data.length + 1) / 2) ∧
    (∀ data : List ℤ, loadAudio 1 data = data) := by
  refine ⟨?_, ?_, ?_⟩
  · intro data i
    simpa [loadAudio] using everyOther_get? data i
  · intro data
    simpa [loadAudio] using everyOther_length data
  · intro data
    simp [loadAudio]

/-- C7: extraction reads, for band `i < chunks`, exactly the contiguous
window of `floor(len/chunks)` samples starting at `i * windowSize`; its
length is exactly the window size, and every sample position it reads
is below `chunks * windowSize`, so all trailing samples are excluded
from every window. -/
theorem C7_windows (data : List ℤ) (chunks i : Nat) (hi : i < chunks) :
    (windowOf data chunks i).length = data.length / chunks ∧
    ∀ j, j < data.length / chunks →
      (windowOf data chunks i).get? j = data.get? (i * (data.length / chunks) + j) ∧
      i * (data.length / chunks) + j < chunks * (data.length / chunks) := by
  refine ⟨windowOf_length data chunks i hi, ?_⟩
  intro j hj
  constructor
  · rw [windowOf, List.get?_take hj, List.get?_drop]
  · have h2 : (i + 1) * (data.length / chunks) ≤ chunks * (data.length / chunks) :=
      Nat.mul_le_mul_right _ hi
    rw [Nat.succ_mul] at h2
    omega

/-- C7 witness: a 1001-sample track with 200 segments has window size 5,
and the window of the last segment stops at sample index 999, so the
final sample (index 1000) is never read. -/
theorem C7_witness :
    (windowOf (List.replicate 1001 (7 : ℤ)) 200 199).length = 5 ∧
    199 * 5 + 4 < 1000 := by
  have hlen : (List.replicate 1001 (7 : ℤ)).length / 200 = 5 := by
    rw [List.length_replicate]
  have h := C7_windows (List.replicate 1001 (7 : ℤ)) 200 199 (by norm_num)
  constructor
  · rw [h.1, hlen]
  · have h2 := (h.2 4 (by rw [hlen]; norm_num)).2
    rw [hlen] at h2
    omega

/-- C9: for every (frame, element) pair the emitted keyframe holds the
immutable base location of the element plus an offset computed only
from that frame and element (envelope value, config, phase, grid
index): the stateful chunk loop equals the pure per-(segment, object)
map `pureKeyframes`, whose entries call `locUpdate` on the unchanged
initial locations — displacement is never accumulated across frames,
so re-deriving any sample with the same inputs gives the same offset. -/
theorem C9_no_accumulation (cfg : AnimCfg) (phaseFun : Nat → ℝ) (env : List ℝ)
    (totalFrames : Nat) (objs : List Loc3) (maxVal : ℝ)
    (hmax : pyMax env = some maxVal) :
    ∃ finalLocs, animateObjects cfg phaseFun (some env) totalFrames objs =
      some (finalLocs, pureKeyframes cfg phaseFun env totalFrames objs maxVal) :=
  animateObjects_eq_pure cfg phaseFun env totalFrames objs maxVal hmax

/-- C9 witness: a concrete one-segment run over a single object. -/
theorem C9_witness :
    ∃ finalLocs,
      animateObjects ⟨2.5, 0.12, 0.15, .WAVE⟩ (fun _ => 0) (some [1]) 4
          [⟨some 0, some 0, some 0⟩] =
        some (finalLocs, pureKeyframes ⟨2.5, 0.12, 0.15, .WAVE⟩ (fun _ => 0) [1] 4
          [⟨some 0, some 0, some 0⟩] 1) :=
  C9_no_accumulation ⟨2.5, 0.12, 0.15, .WAVE⟩ (fun _ => 0) [1] 4
    [⟨some 0, some 0, some 0⟩] 1 (by simp [pyMax])

/-- C1 counterexample: on the all-zero envelope `[0, 0]` the
normalization `amp / max(fft_data)` computes `0 / 0`, which numpy
evaluates to NaN (`none`), not to the claimed normalized energy 0. -/
theorem C1_cex : normAmpOf [0, 0] 0 ≠ some 0 := by
  have h : pyMax [(0 : ℝ), 0] = some 0 := by simp [pyMax]
  simp [normAmpOf, h]

/-- C1 amended: for a silent (all-zero, non-empty) envelope no exception
is raised, but every normalized energy value is the non-finite result
of `0 / 0` (NaN, modelled `none`) rather than 0, and consequently every
keyframe the generation emits has a non-finite z coordinate — the
output does not reduce to the phase-only morph components. -/
theorem C1_silent_nan (env : List ℝ) (hne : env ≠ []) (h0 : ∀ x ∈ env, x = 0) :
    (∀ s, normAmpOf env s = none) ∧
    ∀ (cfg : AnimCfg) (phaseFun : Nat → ℝ) (totalFrames : Nat)
      (objs finalLocs : List Loc3) (kfs : List Keyframe),
      animateObjects cfg phaseFun (some env) totalFrames objs = some (finalLocs, kfs) →
      ∀ kf ∈ kfs, kf.loc.z = none := by
  have hmax : pyMax env = some 0 := pyMax_of_all_zero env hne h0
  constructor
  · intro s
    simp [normAmpOf, hmax]
  · intro cfg phaseFun totalFrames objs finalLocs kfs heq kf hkf
    obtain ⟨fl2, heq2⟩ := animateObjects_eq_pure cfg phaseFun env totalFrames objs 0 hmax
    rw [heq] at heq2
    injection heq2 with heq3
    have hk : kfs = pureKeyframes cfg phaseFun env totalFrames objs 0 :=
      congrArg Prod.snd heq3
    rw [hk] at hkf
    simp only [pureKeyframes, List.mem_flatMap] at hkf
    obtain ⟨sa, -, hmem⟩ := hkf
    simp only [chunkKfs, npDiv_some_zero, List.mem_map] at hmem
    obtain ⟨i, -, rfl⟩ := hmem
    exact locUpdate_z_of_none cfg _ _ _ i _

/-- C1 witness: the silent two-segment envelope has an undefined first
normalized energy value. -/
theorem C1_witness : normAmpOf [0, 0] 0 = none :=
  (C1_silent_nan [0, 0] (by simp) (by simp)).1 0

/-- C6 counterexample: a 1-sample track with one segment has window size
1 — valid by the claim, which only requires window size at least 1 —
but the retained half-spectrum `[:chunk_size//2]` is then empty and the
band value is `np.mean` of an empty slice, NaN (`none`): the envelope
is not a sequence of non-negative numbers. -/
theorem C6_cex :
    ¬ (∃ vals, getFft [(1 : ℤ)] 1 = some vals ∧ vals.length = 1 ∧
        ∀ v ∈ vals, ∃ r, v = some r ∧ 0 ≤ r) := by
  have hval : getFft [(1 : ℤ)] 1 = some [none] := by
    simp [getFft, meanOpt]
  rintro ⟨vals, hv, -, hall⟩
  rw [hval] at hv
  injection hv with hv
  obtain ⟨r, hr, -⟩ := hall none (by rw [← hv]; exact List.mem_singleton_self none)
  exact Option.noConfusion hr

/-- C6 amended: for every track and segment count whose window size is
at least 2, extraction succeeds, the envelope has length exactly
`segmentCount`, and every value is a non-negative real (the mean of a
non-empty list of spectrum magnitudes). -/
theorem C6_envelope (data : List ℤ) (chunks : Nat)
    (h2 : 2 ≤ data.length / chunks) :
    ∃ vals, getFft data chunks = some vals ∧ vals.length = chunks ∧
      ∀ v ∈ vals, ∃ r, v = some r ∧ 0 ≤ r := by
  have hch : ¬ chunks = 0 := by
    intro h
    rw [h] at h2
    simp [Nat.div_zero] at h2
  have hcs : ¬ data.length / chunks = 0 := by omega
  refine ⟨(List.range chunks).map (fun i =>
      meanOpt ((dftMags (windowOf data chunks i)).take ((data.length / chunks) / 2))),
    ?_, by simp, ?_⟩
  · simp [getFft, hch, hcs]
  intro v hv
  simp only [List.mem_map, List.mem_range] at hv
  obtain ⟨i, hi, rfl⟩ := hv
  apply meanOpt_nonneg
  · have hw : (windowOf data chunks i).length = data.length / chunks :=
      windowOf_length data chunks i hi
    have hm : (dftMags (windowOf data chunks i)).length = data.length / chunks := by
      simp [dftMags, hw]
    apply List.ne_nil_of_length_pos
    rw [List.length_take, hm]
    omega
  · intro y hy
    exact dftMags_nonneg _ y (List.take_subset _ _ hy)

/-- C6 witness: a four-sample track with two segments has window size 2
and yields two non-negative envelope values. -/
theorem C6_witness :
    ∃ vals, getFft [(1 : ℤ), 2, 3, 4] 2 = some vals ∧ vals.length = 2 ∧
      ∀ v ∈ vals, ∃ r, v = some r ∧ 0 ≤ r :=
  C6_envelope [1, 2, 3, 4] 2 (by decide)

/-- C4: with the seedable per-element phase generator the spec requires
in place of the unseeded `random.random()` of the source, the pipeline
is a pure function of seed, envelope, timeline and configuration: two
independent runs with equal seeds produce identical keyframe
(displacement sample) sequences. -/
theorem C4_determinism (seed₁ seed₂ : Nat) (cfg : AnimCfg) (env : List ℝ)
    (totalFrames countX countY : Nat) (spacing : ℝ) (h : seed₁ = seed₂) :
    pipelineRun seed₁ cfg env totalFrames countX countY spacing =
      pipelineRun seed₂ cfg env totalFrames countX countY spacing := by
  rw [h]

/-- C5 counterexample: the addon does not take (row, col) from the grid
layout; it recovers them from the flat index via
`cols = int(np.sqrt(num_objs))`. In the 8-row, 2-column grid
(`gridPositions 2 8`, 16 elements) the element at grid position
(row 1, col 0) has flat index `1 * 2 + 0 = 2`, but the addon uses
`cols = sqrt(16) = 4`, giving stagger offset `(2//4 + 2%4)*0.15 = 0.3`
instead of the claimed `(1+0)*0.15 = 0.15`. With `exaggeration = 1`,
`morphAmount = 0`, `zWaveEmphasis = 0`, `normEnergy = 1`, frame 1 and
phase `2*pi - 0.2` (so `t = 2*pi - 0.15`), the assigned z is
`sin(0.15) > 0` while the claimed formula gives `sin(2*pi) = 0`. -/
theorem C5_cex :
    (gridPositions 2 8 1).length = 16 ∧
    (locUpdate ⟨1, 0, 0, .WAVE⟩ (Nat.sqrt 16) (some 1) ⟨some 0, some 0, some 0⟩
        (2 * Real.pi - 0.2) 2 1).z ≠
      some ((0 : ℝ) + ((1 : ℝ) * 1 *
        Real.sin ((((1 : ℕ) + (0 : ℕ) : ℕ) : ℝ) * 0.15 +
          ((1 : ℕ) : ℝ) * 0.05 + (2 * Real.pi - 0.2)) +
        0 * Real.sin ((((1 : ℕ) : ℝ) * 0.05 + (2 * Real.pi - 0.2)) * 0.3))) := by
  constructor
  · rfl
  · have hsq : Nat.sqrt 16 = 4 := by
      rw [(by norm_num : (16 : ℕ) = 4 * 4), Nat.sqrt_eq]
    rw [hsq]
    simp only [locUpdate, npMul_some_some, npAdd_some_some, Loc3.mk.injEq]
    have harg1 : (((2 / 4 + 2 % 4 : ℕ) : ℝ) * 0.15) + (((1 : ℕ) : ℝ) * 0.05 + (2 * Real.pi - 0.2)) =
        0.15 + 2 * Real.pi := by
      have h : (2 / 4 + 2 % 4 : ℕ) = 2 := by norm_num
      rw [h]
      push_cast
      ring
    have harg2 : (((1 : ℕ) + (0 : ℕ) : ℕ) : ℝ) * 0.15 +
        ((1 : ℕ) : ℝ) * 0.05 + (2 * Real.pi - 0.2) = 2 * Real.pi := by
      push_cast
      ring
    rw [harg1, harg2, Real.sin_add_two_pi, Real.sin_two_pi]
    intro hcontra
    have hinj := Option.some.inj hcontra
    have hpos : 0 < Real.sin 0.15 := by
      apply Real.sin_pos_of_pos_of_lt_pi
      · norm_num
      · have hpi := Real.pi_gt_d6
        linarith
    linarith

/-- C5 amended: the offsets of the WAVE style follow the claimed
formulas with (row, col) recovered from the flat element index `i` as
`(i // cols, i % cols)` where `cols = int(sqrt(num_objs))`; this agrees
with the element's grid position precisely when the recovered width
matches the construction width, in particular for every square grid.
For a k-by-k grid (`num_objs = k * k`), the element at grid position
(row, col) — flat index `row * k + col` — gets lateral offsets
`morphAmount * sin(t + offset)` and vertical offset
`normEnergy * exaggeration * sin(offset + t) +
zWaveEmphasis * sin(0.3 * t)` with `offset = (row + col) * 0.15` and
`t = frame * 0.05 + randomPhase`. -/
theorem C5_wave_square (cfg : AnimCfg) (hw : cfg.animationType = .WAVE)
    (k row col : Nat) (hk : 1 ≤ k) (_hrow : row < k) (hcol : col < k)
    (na : ℝ) (base : Loc3) (phase : ℝ) (frameNo : Nat) :
    locUpdate cfg (Nat.sqrt (k * k)) (some na) base phase (row * k + col) frameNo =
      ⟨npAdd base.x (some (cfg.morphAmount *
          Real.sin (((frameNo : ℝ) * 0.05 + phase) + ((row : ℝ) + (col : ℝ)) * 0.15))),
       npAdd base.y (some (cfg.morphAmount *
          Real.sin (((frameNo : ℝ) * 0.05 + phase) + ((row : ℝ) + (col : ℝ)) * 0.15))),
       npAdd base.z (some (na * cfg.exaggeration *
          Real.sin ((((row : ℝ) + (col : ℝ)) * 0.15) + ((frameNo : ℝ) * 0.05 + phase)) +
          cfg.zWaveEmphasis * Real.sin (((frameNo : ℝ) * 0.05 + phase) * 0.3)))⟩ := by
  have hk0 : 0 < k := hk
  have hsq : Nat.sqrt (k * k) = k := Nat.sqrt_eq k
  have hcomm : row * k + col = col + k * row := by ring
  have hdiv : (row * k + col) / k = row := by
    rw [hcomm, Nat.add_mul_div_left col row hk0, Nat.div_eq_of_lt hcol, Nat.zero_add]
  have hmod : (row * k + col) % k = col := by
    rw [hcomm, Nat.add_mul_mod_self_left, Nat.mod_eq_of_lt hcol]
  simp only [locUpdate, hw, hsq, hdiv, hmod, npMul_some_some, npAdd_some_some, Loc3.mk.injEq]
  refine ⟨?_, ?_, ?_⟩ <;> · congr 1
                            push_cast
                            ring_nf

/-- C5 witness: the 2-by-2 grid element at grid position (1, 1), flat
index 3, at frame 3 with phase 0 and normalized energy 1, under the
default configuration. -/
theorem C5_witness :
    locUpdate ⟨2.5, 0.12, 0.15, .WAVE⟩ (Nat.sqrt (2 * 2)) (some 1)
        ⟨some 0, some 0, some 0⟩ 0 (1 * 2 + 1) 3 =
      ⟨npAdd (some 0) (some ((0.12 : ℝ) *
          Real.sin ((((3 : ℕ) : ℝ) * 0.05 + 0) + (((1 : ℕ) : ℝ) + ((1 : ℕ) : ℝ)) * 0.15))),
       npAdd (some 0) (some ((0.12 : ℝ) *
          Real.sin ((((3 : ℕ) : ℝ) * 0.05 + 0) + (((1 : ℕ) : ℝ) + ((1 : ℕ) : ℝ)) * 0.15))),
       npAdd (some 0) (some ((1 : ℝ) * 2.5 *
          Real.sin (((((1 : ℕ) : ℝ) + ((1 : ℕ) : ℝ)) * 0.15) + (((3 : ℕ) : ℝ) * 0.05 + 0)) +
          (0.15 : ℝ) * Real.sin ((((3 : ℕ) : ℝ) * 0.05 + 0) * 0.3)))⟩ :=
  C5_wave_square ⟨2.5, 0.12, 0.15, .WAVE⟩ rfl 2 1 1 (by decide) (by decide) (by decide)
    1 ⟨some 0, some 0, some 0⟩ 0 3

/-- C4 witness: two runs with seed 42 coincide. -/
theorem C4_witness :
    pipelineRun 42 ⟨2.5, 0.12, 0.15, .WAVE⟩ [1, 2] 4 2 2 0.5 =
      pipelineRun 42 ⟨2.5, 0.12, 0.15, .WAVE⟩ [1, 2] 4 2 2 0.5 :=
  C4_determinism 42 42 ⟨2.5, 0.12, 0.15, .WAVE⟩ [1, 2] 4 2 2 0.5 rfl

end BVM
